import Mathlib

/-!
Verification of the parameter-synchronization subsystem of the Mava
repository (`mava/systems/parameter_client.py`) and the executor
observation pipeline (`mava/systems/idqn/components/executing/observing.py`).

The Python code is shallowly embedded: dictionaries become association
lists, numpy arrays become `NpArray` records carrying an object identity
tag, a shape, and flattened integer contents, and the asynchronous
futures of the client become `Option` slots whose completion status is
driven by explicit environment events.  Exceptions raised by the Python
code (`KeyError`, `IndexError`, `NotImplementedError`, ...) are modelled
by a `CopyErr`/success-flag discipline that also records the partial
mutations the Python interpreter leaves behind when a loop raises
half-way through.
-/

namespace Mava

/-! ### Association-list dictionary helpers -/

/-- Keys of an association list, in insertion order (Python `dict.keys()`). -/
def keysOf {α : Type} (l : List (String × α)) : List String :=
  l.map Prod.fst

/-- Python `d[k]` as an `Option`. -/
def dlookup {α : Type} (l : List (String × α)) (k : String) : Option α :=
  l.lookup k

/-- Update the value stored at an existing key (`d[k] = v` when `k in d`). -/
def setK {α : Type} (l : List (String × α)) (k : String) (v : α) :
    List (String × α) :=
  l.map (fun kv => if kv.1 = k then (k, v) else kv)

/-- Python dict assignment `d[k] = v`: overwrite when present, append otherwise. -/
def dinsert {α : Type} (l : List (String × α)) (k : String) (v : α) :
    List (String × α) :=
  if (dlookup l k).isSome then setK l k v else l ++ [(k, v)]

/-- Key-wise total of an integer-valued delta dictionary at key `k`.
Entries whose key is not `k` contribute nothing. -/
def sumAt (l : List (String × Int)) (k : String) : Int :=
  (l.map (fun kv => if kv.1 = k then kv.2 else 0)).sum

/-! ### Values held by the parameter store

`NpArray` models a `numpy.ndarray`: `oid` is the Python object identity
(`id(x)`), `shape` the array shape, `data` the row-major flattened
contents.  The in-place operators `*=` / `+=` used by `_copy` keep `oid`
fixed; plain assignment replaces it. -/

structure NpArray where
  oid : Nat
  shape : List Nat
  data : List Int
  deriving DecidableEq, Repr

/-- Number of scalar entries an array of the given shape holds. -/
def shapeSize (shape : List Nat) : Nat :=
  shape.prod

/-- A value inside a one-level parameter dictionary entry: either a plain
(non-dict) value, assigned wholesale by `_copy`, or a nested
`type2_key`-indexed dictionary, updated element-wise. -/
inductive DVal where
  | leaf : Int → DVal
  | sub : List (String × Int) → DVal
  deriving DecidableEq, Repr

/-- A parameter value as dispatched on by `ParameterClient._copy`:
a dictionary, a numpy array, a tuple of arrays, or any other Python
object (`blob`, carrying its type name), which `_copy` rejects. -/
inductive PValue where
  | dict : List (String × DVal) → PValue
  | arr : NpArray → PValue
  | tup : List NpArray → PValue
  | blob : String → PValue
  deriving DecidableEq, Repr

/-- A parameter dictionary (client replica or server response). -/
def Params : Type := List (String × PValue)

instance : DecidableEq Params := by
  unfold Params; infer_instance

/-- The exceptions `_copy` and `add_async` can raise. -/
inductive CopyErr where
  | keyError : String → CopyErr
  | typeError : String → CopyErr
  | attrError : String → CopyErr
  | indexError : Nat → CopyErr
  | broadcastError : CopyErr
  | notImplemented : String → String → CopyErr
  deriving DecidableEq, Repr

/-! ### The `_copy` merge procedure (parameter_client.py lines 298-363)

The embedding covers the configuration exercised by all claims:
`self._devices` is empty, so the `jax.device_put` branches are never
taken.  numpy broadcasting beyond an exact shape match of the added
slice is not modelled (the data-model invariant keeps shapes fixed up to
one leading replica axis). -/

/-- Lines 344-349: `self._parameters[key] *= 0` followed by
`self._parameters[key] += new` (or `+= new[0]` on a shape mismatch).
The identity `oid` of the local buffer is preserved; on a raise the
buffer has already been zeroed (the partial mutation is kept). -/
def arrMerge (la na : NpArray) : NpArray × Option CopyErr :=
  let zeroed : NpArray := { la with data := la.data.map (fun _ => 0) }
  if na.shape = la.shape then
    ({ zeroed with data := zeroed.data.zipWith (· + ·) na.data }, none)
  else
    match na.shape with
    | [] => (zeroed, some (.indexError 0))
    | d :: rest =>
      if d ≥ 1 ∧ rest = la.shape then
        ({ zeroed with
            data := zeroed.data.zipWith (· + ·) (na.data.take (shapeSize rest)) },
          none)
      else (zeroed, some .broadcastError)

/-- One iteration of the loop at lines 350-358:
`self._parameters[key][i] = new_parameters[key][i]`; reading past the
end of the server tuple raises `IndexError`, which aborts the loop
(the error state is absorbing). -/
def tupStep (nt : List NpArray) (acc : List NpArray × Option CopyErr) (i : Nat) :
    List NpArray × Option CopyErr :=
  match acc with
  | (lt, some e) => (lt, some e)
  | (lt, none) =>
    match nt.get? i with
    | some a => (lt.set i a, none)
    | none => (lt, some (.indexError i))

/-- Lines 350-358: `for i in range(len(self._parameters[key])): ...` —
the loop runs over the indices of the local sequence only. -/
def tupMerge (lt nt : List NpArray) : List NpArray × Option CopyErr :=
  (List.range lt.length).foldl (tupStep nt) (lt, none)

/-- Lines 312-329 (no devices): iterate over the LOCAL nested dictionary's
keys and pull each entry from the server's nested dictionary; a key the
server response lacks raises `KeyError` after the earlier keys were
already overwritten. -/
def subMerge (ls2 ns2 : List (String × Int)) :
    List (String × Int) × Option CopyErr :=
  (keysOf ls2).foldl
    (fun acc k2 =>
      match acc with
      | (l, some e) => (l, some e)
      | (l, none) =>
        match dlookup ns2 k2 with
        | some v => (setK l k2 v, none)
        | none => (l, some (.keyError k2)))
    (ls2, none)

/-- Lines 309-333: iterate over the server dictionary's `type1_key`s;
nested dictionaries are merged with `subMerge`, plain values are
assigned wholesale. -/
def dictMerge (ld nd : List (String × DVal)) :
    List (String × DVal) × Option CopyErr :=
  nd.foldl
    (fun acc kv =>
      match acc with
      | (l, some e) => (l, some e)
      | (l, none) =>
        match kv.2 with
        | .leaf v => (dinsert l kv.1 (.leaf v), none)
        | .sub s2 =>
          match dlookup l kv.1 with
          | none => (l, some (.keyError kv.1))
          | some (.leaf _) => (l, some (.attrError kv.1))
          | some (.sub ls2) =>
            let r := subMerge ls2 s2
            (dinsert l kv.1 (.sub r.1), r.2))
    (ld, none)

/-- Merge one `new_parameters[key]` into the local replica, dispatching
on the runtime type of the server value (lines 307-363, no devices). -/
def copyKey (loc : Params) (k : String) (v : PValue) :
    Params × Option CopyErr :=
  match v with
  | .dict nd =>
    match dlookup loc k with
    | none => (loc, some (.keyError k))
    | some (.dict ld) =>
      let r := dictMerge ld nd
      (dinsert loc k (.dict r.1), r.2)
    | some _ => (loc, some (.typeError k))
  | .arr na =>
    match dlookup loc k with
    | none => (loc, some (.keyError k))
    | some (.arr la) =>
      let r := arrMerge la na
      (dinsert loc k (.arr r.1), r.2)
    | some _ => (loc, some (.typeError k))
  | .tup nt =>
    match dlookup loc k with
    | none => (loc, some (.keyError k))
    | some (.tup lt) =>
      let r := tupMerge lt nt
      (dinsert loc k (.tup r.1), r.2)
    | some _ => (loc, some (.typeError k))
  | .blob t => (loc, some (.notImplemented k t))

/-- `ParameterClient._copy` (lines 298-363): fold the merge over the keys
of the server response in order; the first raised exception aborts the
loop, keeping the mutations already applied. -/
def copyP (loc : Params) : List (String × PValue) → Params × Option CopyErr
  | [] => (loc, none)
  | kv :: rest =>
    match copyKey loc kv.1 kv.2 with
    | (l2, some e) => (l2, some e)
    | (l2, none) => copyP l2 rest

/-! ### The `ParameterClient` state machine (parameter_client.py lines 29-295)

Futures become `Option` slots storing a completion flag (and, for get
requests, the response the server will deliver).  The environment
chooses when an outstanding request completes (the `done*` events) and
whether a freshly created future is already completed at creation time
(the `cd` event inputs; always true in single-process mode, see
`doneFutureDone`).  Ghost fields (`issued*`, `addSent`, `setSent`,
`getReqKeys`) record the requests actually handed to the server. -/

structure CState where
  updatePeriod : Nat
  multiProcess : Bool
  params : Params
  getKeys : List String
  setKeys : List String
  getCallCounter : Nat
  setCallCounter : Nat
  setGetCallCounter : Nat
  getFuture : Option (Bool × Params)
  setFuture : Option Bool
  setGetFuture : Option (Bool × Bool × Params)
  addFuture : Option Bool
  addBuffer : List (String × Int)
  issuedGet : Nat
  issuedSet : Nat
  issuedSetGet : Nat
  issuedAdd : Nat
  addSent : List (List (String × Int))
  setSent : List (List (String × Option PValue))
  getReqKeys : List (List String)
  deriving DecidableEq

/-- A fresh client as built by `ParameterClient.__init__`: zeroed call
counters, every future slot `None`, an empty add-accumulation buffer. -/
def initC (period : Nat) (multi : Bool) (ps : Params)
    (gk sk : List String) : CState :=
  { updatePeriod := period, multiProcess := multi, params := ps,
    getKeys := gk, setKeys := sk,
    getCallCounter := 0, setCallCounter := 0, setGetCallCounter := 0,
    getFuture := none, setFuture := none, setGetFuture := none,
    addFuture := none, addBuffer := [],
    issuedGet := 0, issuedSet := 0, issuedSetGet := 0, issuedAdd := 0,
    addSent := [], setSent := [], getReqKeys := [] }

/-- The dictionary `{key: self._parameters[key] for key in self._set_keys}`
pushed by the set-type requests (lines 77-79, 89-91, 115-117, 135-137). -/
def pushSet (s : CState) : List (String × Option PValue) :=
  s.setKeys.map (fun k => (k, dlookup s.params k))

/-- `ParameterClient.get_async`, issue phase (lines 151-160): the call
counter is capped at the update period, and a request is issued only
when the period is reached and no request is pending.  `cd` is the
completion status the freshly created future has when `done()` is
polled at line 162 (a `DoneFuture` is already complete); `resp` is the
response the server delivers for this request. -/
def get_issue (s : CState) (cd : Bool) (resp : Params) : CState :=
  let cnt := if s.getCallCounter < s.updatePeriod then s.getCallCounter + 1
             else s.getCallCounter
  let periodReached : Bool := decide (s.updatePeriod ≤ cnt)
  if periodReached && s.getFuture.isNone then
    { s with getFuture := some (cd, resp), getCallCounter := 0,
             issuedGet := s.issuedGet + 1,
             getReqKeys := s.getReqKeys ++ [s.getKeys] }
  else { s with getCallCounter := cnt }

/-- `ParameterClient.get_async`, poll phase (lines 162-165): when the
pending request reports done, merge its result and clear the slot; a
merge exception propagates before the slot is cleared. -/
def get_poll (s : CState) : CState × Bool :=
  match s.getFuture with
  | some (true, r) =>
    let c := copyP s.params r
    match c.2 with
    | none => ({ s with params := c.1, getFuture := none }, true)
    | some _ => ({ s with params := c.1 }, false)
  | _ => (s, true)

/-- `ParameterClient.get_async` (lines 145-165): there is no early
return, so the poll phase also sees a request issued earlier in this
very call. -/
def get_async (s : CState) (cd : Bool) (resp : Params) : CState × Bool :=
  get_poll (get_issue s cd resp)

/-- `ParameterClient.set_async` (lines 167-189). -/
def set_async (s : CState) (cd : Bool)
    (p : Option (List (String × PValue))) : CState × Bool :=
  let cnt := if s.setCallCounter < s.updatePeriod then s.setCallCounter + 1
             else s.setCallCounter
  let periodReached : Bool := decide (s.updatePeriod ≤ cnt)
  if periodReached && s.setFuture.isNone then
    -- lines 179-187, with the early return at line 187
    let pushed := match p with
      | none => pushSet s
      | some q => q.map (fun kv => (kv.1, some kv.2))
    ({ s with setFuture := some cd, setCallCounter := 0,
              issuedSet := s.issuedSet + 1,
              setSent := s.setSent ++ [pushed] }, true)
  else
    -- lines 188-189: the acknowledgment is discarded
    let s1 := { s with setCallCounter := cnt }
    match s1.setFuture with
    | some true => ({ s1 with setFuture := none }, true)
    | _ => (s1, true)

/-- `ParameterClient._adjust_and_request` (lines 109-118): synchronous
set followed by a get over the FULL `_get_keys` list and an immediate
merge of the response. -/
def adjust_and_request (s : CState) (resp : Params) : CState × Bool :=
  let s1 := { s with setSent := s.setSent ++ [pushSet s],
                     getReqKeys := s.getReqKeys ++ [s.getKeys],
                     issuedSetGet := s.issuedSetGet + 1 }
  let c := copyP s1.params resp
  ({ s1 with params := c.1 }, c.2.isNone)

/-- `ParameterClient._async_adjust_and_request` (lines 120-143).  In
multi-process mode the get half requests only
`set(self._get_keys) - set(self._set_keys)` (modelled as an ordered
filter) and attaches a completion callback performing the merge; a
callback attached to an already-completed future runs immediately, and
exceptions inside future callbacks are swallowed by the futures
machinery.  Returns the new future pair and the success flag. -/
def async_adjust_and_request (s : CState) (cds cdg : Bool) (resp : Params) :
    CState × Option (Bool × Bool × Params) × Bool :=
  if !s.multiProcess then
    let r := adjust_and_request s resp
    (r.1, none, r.2)
  else
    let diff := s.getKeys.filter (fun k => !(s.setKeys.contains k))
    let s1 := { s with setSent := s.setSent ++ [pushSet s],
                       getReqKeys := s.getReqKeys ++ [diff],
                       issuedSetGet := s.issuedSetGet + 1 }
    if cdg then
      let c := copyP s1.params resp
      ({ s1 with params := c.1 }, some (cds, true, resp), true)
    else (s1, some (cds, false, resp), true)

/-- `ParameterClient.set_and_get_async` (lines 191-212). -/
def set_and_get_async (s : CState) (cds cdg : Bool) (resp : Params) :
    CState × Bool :=
  let cnt := if s.setGetCallCounter < s.updatePeriod then
               s.setGetCallCounter + 1
             else s.setGetCallCounter
  let periodReached : Bool := decide (s.updatePeriod ≤ cnt)
  if periodReached && s.setGetFuture.isNone then
    let r := async_adjust_and_request s cds cdg resp
    if r.2.2 then
      ({ r.1 with setGetFuture := r.2.1, setGetCallCounter := 0 }, true)
    else
      -- the exception propagates before lines 205-206 run: the future
      -- slot keeps its value and the counter keeps its increment
      ({ r.1 with setGetCallCounter := cnt }, false)
  else
    let s1 := { s with setGetCallCounter := cnt }
    match s1.setGetFuture with
    | some (true, true, _) => ({ s1 with setGetFuture := none }, true)
    | _ => (s1, true)

/-- `self._async_add_buffer[name] += params[name]` (lines 231, 242):
raises `KeyError` when `name` is not already a key of the buffer. -/
def bufIncr (buffer : List (String × Int)) (name : String) (v : Int) :
    Option (List (String × Int)) :=
  if (dlookup buffer name).isSome then
    some (buffer.map (fun kv => if kv.1 = name then (kv.1, kv.2 + v) else kv))
  else none

/-- The loop `for name in names: self._async_add_buffer[name] += params[name]`:
stops at the first missing key, keeping the increments already applied,
and reports whether it ran to completion. -/
def bufAddAll (buffer : List (String × Int)) :
    List (String × Int) → List (String × Int) × Bool
  | [] => (buffer, true)
  | kv :: rest =>
    match bufIncr buffer kv.1 kv.2 with
    | some b => bufAddAll b rest
    | none => (buffer, false)

/-- `ParameterClient.add_async` (lines 214-245). -/
def add_async (s : CState) (cd : Bool) (p : List (String × Int)) :
    CState × Bool :=
  -- lines 220-221: clear a completed future
  let s := if s.addFuture = some true then { s with addFuture := none } else s
  if s.addFuture.isNone then
    if s.addBuffer.isEmpty then
      -- lines 227-228: issue the new delta directly
      ({ s with addFuture := some cd, issuedAdd := s.issuedAdd + 1,
                addSent := s.addSent ++ [p] }, true)
    else
      -- lines 230-234: fold the new delta into the buffer, flush it
      let r := bufAddAll s.addBuffer p
      if r.2 then
        ({ s with addFuture := some cd, issuedAdd := s.issuedAdd + 1,
                  addSent := s.addSent ++ [r.1], addBuffer := [] }, true)
      else
        -- `KeyError` at line 231, before the flush at line 233
        ({ s with addBuffer := r.1 }, false)
  else
    if !s.addBuffer.isEmpty then
      -- lines 240-242
      let r := bufAddAll s.addBuffer p
      ({ s with addBuffer := r.1 }, r.2)
    else
      -- lines 243-245
      ({ s with addBuffer := p }, true)

/-- Modelled from the spec: `mava/utils/done_future.py` (`DoneFuture`)
is not among the sources; the spec states that in single-process mode
every async operation "still returns an already-completed handle", so a
`DoneFuture` reports `done()` as true from the moment of its creation.
Single-process runs are therefore the runs whose creation inputs use
this constant. -/
def doneFutureDone : Bool := true

/-- Environment completes the outstanding get request. -/
def completeGet (s : CState) : CState :=
  match s.getFuture with
  | some (_, r) => { s with getFuture := some (true, r) }
  | none => s

/-- Environment completes the outstanding set request. -/
def completeSet (s : CState) : CState :=
  match s.setFuture with
  | some _ => { s with setFuture := some true }
  | none => s

/-- Environment completes the set half of the combined request. -/
def completeSetGetS (s : CState) : CState :=
  match s.setGetFuture with
  | some (_, dg, r) => { s with setGetFuture := some (true, dg, r) }
  | none => s

/-- Environment completes the get half of the combined request; the
callback attached at line 141 merges the response into the replica
(callback exceptions are swallowed by the futures machinery). -/
def completeSetGetG (s : CState) : CState :=
  match s.setGetFuture with
  | some (ds, false, r) =>
    let c := copyP s.params r
    { s with setGetFuture := some (ds, true, r), params := c.1 }
  | _ => s

/-- Environment completes the outstanding add request. -/
def completeAdd (s : CState) : CState :=
  match s.addFuture with
  | some _ => { s with addFuture := some true }
  | none => s

/-- The events driving a client: the four public async calls (with their
environment-chosen completion data) and the five completion events. -/
inductive PCEv where
  | getA (cd : Bool) (resp : Params)
  | setA (cd : Bool) (p : Option (List (String × PValue)))
  | setGetA (cds cdg : Bool) (resp : Params)
  | addA (cd : Bool) (p : List (String × Int))
  | doneGet
  | doneSet
  | doneSetGetS
  | doneSetGetG
  | doneAdd
  deriving DecidableEq

/-- One step of the client; the flag is false when the Python call
would raise. -/
def stepPC (s : CState) : PCEv → CState × Bool
  | .getA cd resp => get_async s cd resp
  | .setA cd p => set_async s cd p
  | .setGetA cds cdg resp => set_and_get_async s cds cdg resp
  | .addA cd p => add_async s cd p
  | .doneGet => (completeGet s, true)
  | .doneSet => (completeSet s, true)
  | .doneSetGetS => (completeSetGetS s, true)
  | .doneSetGetG => (completeSetGetG s, true)
  | .doneAdd => (completeAdd s, true)

/-- Run a sequence of events; a raise aborts the run (the exception
propagates to the caller). -/
def runPC (s : CState) : List PCEv → CState × Bool
  | [] => (s, true)
  | e :: rest =>
    let r := stepPC s e
    if r.2 then runPC r.1 rest else (r.1, false)

/-! ### Ghost measures -/

/-- Key-wise total of all deltas handed to the server so far. -/
def sumSentAt (s : CState) (k : String) : Int :=
  (s.addSent.map (fun d => sumAt d k)).sum

/-- Key-wise total of all deltas passed to `add_async` by a sequence of
events. -/
def sumPassedAdds (evs : List PCEv) (k : String) : Int :=
  (evs.map (fun e => match e with
    | .addA _ p => sumAt p k
    | _ => 0)).sum

/-- Number of unresolved (issued, not yet completed) get requests. -/
def unresolvedGet (s : CState) : Nat :=
  match s.getFuture with
  | some (false, _) => 1
  | _ => 0

/-- Number of unresolved set requests. -/
def unresolvedSet (s : CState) : Nat :=
  match s.setFuture with
  | some false => 1
  | _ => 0

/-- Number of unresolved combined set-and-get requests (unresolved until
both halves have completed). -/
def unresolvedSetGet (s : CState) : Nat :=
  match s.setGetFuture with
  | some (ds, dg, _) => if ds && dg then 0 else 1
  | none => 0

/-- Number of unresolved add requests. -/
def unresolvedAdd (s : CState) : Nat :=
  match s.addFuture with
  | some false => 1
  | _ => 0

/-- Number of outstanding (issued, not yet collected) operations over
all four request kinds. -/
def outstandingOps (s : CState) : Nat :=
  (if s.getFuture.isSome then 1 else 0) +
  (if s.setFuture.isSome then 1 else 0) +
  (if s.setGetFuture.isSome then 1 else 0) +
  (if s.addFuture.isSome then 1 else 0)

/-- Total number of requests issued, over all four request kinds. -/
def totalIssued (s : CState) : Nat :=
  s.issuedGet + s.issuedSet + s.issuedSetGet + s.issuedAdd

/-! ### The executor observation pipeline
(`mava/systems/idqn/components/executing/observing.py`)

The executor store is reduced to the fields the component reads and
writes.  The external sampling function `sample_new_agent_keys` is a
collaborator, so its output for the episode is an event input; the
experience sink (`adder`) is recorded as a log of the `add_first`/`add`
calls it receives.  The parameter client driven by the update hooks is
tracked by ghost call counters (its own behaviour is the `CState`
machine above). -/

/-- A step-metadata dictionary: the `network_int_keys` entry the
component writes, plus the opaque rest of the dictionary. -/
structure Extras where
  netIntKeys : Option (List (String × Nat))
  payload : Nat
  deriving DecidableEq

structure ExecStore where
  hasAdder : Bool
  hasClient : Bool
  agentNetKeys : List (String × String)
  networkIntKeysExtras : List (String × Nat)
  extras : Extras
  nextExtras : Extras
  addFirstLog : List (Nat × Extras)
  addLog : List (List (String × Nat) × Nat × Extras)
  clientGetCalls : Nat
  clientWaitCalls : Nat
  deriving DecidableEq

/-- `FeedforwardExecutorObserve.on_execution_observe_first` (lines
35-65): no-op without an adder; otherwise resample the agent-to-network
assignment, stash the integer network keys into the step metadata and
forward timestep plus metadata to `adder.add_first`. -/
def on_execution_observe_first (s : ExecStore)
    (sampledNet : List (String × Nat)) (sampledANK : List (String × String))
    (ts : Nat) (base : Extras) : ExecStore :=
  if !s.hasAdder then s
  else
    let s1 := { s with networkIntKeysExtras := sampledNet,
                       agentNetKeys := sampledANK }
    let ex : Extras := { base with netIntKeys := some s1.networkIntKeysExtras }
    { s1 with extras := ex, addFirstLog := s1.addFirstLog ++ [(ts, ex)] }

/-- `FeedforwardExecutorObserve.on_execution_observe` (lines 67-95):
no-op without an adder; otherwise build the per-agent action record,
write the episode's network keys into the next-step metadata and
forward everything to `adder.add`. -/
def on_execution_observe (s : ExecStore)
    (actionsInfo : List (String × Nat)) (nextTs : Nat) (base : Extras) :
    ExecStore :=
  if !s.hasAdder then s
  else
    let adderActions := actionsInfo.map (fun p => (p.1, p.2))
    let nx : Extras := { base with netIntKeys := some s.networkIntKeysExtras }
    { s with nextExtras := nx,
             addLog := s.addLog ++ [(adderActions, nextTs, nx)] }

/-- `on_execution_update` (lines 97-100): trigger `get_async` on the
attached parameter client. -/
def on_execution_update (s : ExecStore) : ExecStore :=
  if s.hasClient then { s with clientGetCalls := s.clientGetCalls + 1 } else s

/-- `on_execution_force_update` (lines 102-105): trigger `get_and_wait`. -/
def on_execution_force_update (s : ExecStore) : ExecStore :=
  if s.hasClient then { s with clientWaitCalls := s.clientWaitCalls + 1 }
  else s

/-- Events driving the observation pipeline within and across episodes. -/
inductive ExEv where
  | observeFirst (sampledNet : List (String × Nat))
      (sampledANK : List (String × String)) (ts : Nat) (base : Extras)
  | observe (actionsInfo : List (String × Nat)) (nextTs : Nat) (base : Extras)
  | update
  | forceUpdate
  deriving DecidableEq

/-- Whether an event is an episode start. -/
def isObserveFirst : ExEv → Bool
  | .observeFirst _ _ _ _ => true
  | _ => false

def stepEx (s : ExecStore) : ExEv → ExecStore
  | .observeFirst net ank ts base => on_execution_observe_first s net ank ts base
  | .observe ai ts base => on_execution_observe s ai ts base
  | .update => on_execution_update s
  | .forceUpdate => on_execution_force_update s

def runEx (s : ExecStore) : List ExEv → ExecStore
  | [] => s
  | e :: rest => runEx (stepEx s e) rest

/-! ### Dictionary and buffer lemmas -/

lemma dlookup_isSome_of_mem {α : Type} {l : List (String × α)} {k : String}
    (h : k ∈ keysOf l) : (dlookup l k).isSome = true := by
  induction l with
  | nil => simp [keysOf] at h
  | cons kv t ih =>
    simp [keysOf] at h
    rcases h with h | h
    · simp [dlookup, List.lookup, h]
    · simp only [dlookup, List.lookup]
      rcases eq_or_ne k kv.1 with he | he
      · simp [he]
      · simpa [dlookup, beq_false_of_ne he] using ih (by simpa [keysOf] using h)

lemma dlookup_setK_self {α : Type} {l : List (String × α)} {k : String}
    (v : α) (h : (dlookup l k).isSome = true) :
    dlookup (setK l k v) k = some v := by
  induction l with
  | nil => simp [dlookup] at h
  | cons kv t ih =>
    obtain ⟨k1, v1⟩ := kv
    rcases eq_or_ne k1 k with he | he
    · have hs : setK ((k1, v1) :: t) k v = (k, v) :: setK t k v := by
        simp [setK, he]
      rw [hs]
      simp [dlookup, List.lookup]
    · have hs : setK ((k1, v1) :: t) k v = (k1, v1) :: setK t k v := by
        simp [setK, he]
      have h' : (dlookup t k).isSome = true := by
        simpa [dlookup, List.lookup, beq_false_of_ne (Ne.symm he)] using h
      rw [hs]
      simpa [dlookup, List.lookup, beq_false_of_ne (Ne.symm he)] using ih h'

lemma dlookup_dinsert_self {α : Type} (l : List (String × α)) (k : String)
    (v : α) : dlookup (dinsert l k v) k = some v := by
  unfold dinsert
  split
  · exact dlookup_setK_self v (by assumption)
  · induction l with
    | nil => simp [dlookup, List.lookup]
    | cons kv t ih =>
      rename_i h
      have hne : ¬kv.1 = k := by
        intro he
        simp [dlookup, List.lookup, he] at h
      have h' : ¬(dlookup t k).isSome = true := by
        simpa [dlookup, List.lookup, beq_false_of_ne (Ne.symm hne)] using h
      simpa [dlookup, List.lookup, beq_false_of_ne (Ne.symm hne)] using ih h'

lemma sumAt_nil (k : String) : sumAt [] k = 0 := rfl

lemma sumAt_cons (kv : String × Int) (t : List (String × Int)) (k : String) :
    sumAt (kv :: t) k = (if kv.1 = k then kv.2 else 0) + sumAt t k := by
  simp [sumAt]

lemma mem_of_dlookup_isSome {α : Type} {l : List (String × α)} {k : String}
    (h : (dlookup l k).isSome = true) : k ∈ keysOf l := by
  induction l with
  | nil => simp [dlookup] at h
  | cons kv t ih =>
    rcases eq_or_ne k kv.1 with he | he
    · simp [keysOf, he]
    · have h' : (dlookup t k).isSome = true := by
        simpa [dlookup, List.lookup, beq_false_of_ne he] using h
      simp [keysOf]
      exact Or.inr (by simpa [keysOf] using ih h')

lemma bufIncr_some {b b' : List (String × Int)} {n : String} {v : Int}
    (h : bufIncr b n v = some b') :
    (dlookup b n).isSome = true ∧
      b' = b.map (fun kv => if kv.1 = n then (kv.1, kv.2 + v) else kv) := by
  unfold bufIncr at h
  split at h <;> simp_all

lemma bufIncr_isSome {b : List (String × Int)} {n : String} (v : Int)
    (h : (dlookup b n).isSome = true) :
    bufIncr b n v
      = some (b.map (fun kv => if kv.1 = n then (kv.1, kv.2 + v) else kv)) := by
  unfold bufIncr
  simp [h]

lemma keysOf_map_incr (b : List (String × Int)) (n : String) (v : Int) :
    keysOf (b.map (fun kv => if kv.1 = n then (kv.1, kv.2 + v) else kv))
      = keysOf b := by
  induction b with
  | nil => rfl
  | cons kv t ih =>
    by_cases he : kv.1 = n <;> simp [keysOf, he] at ih ⊢ <;>
      simpa [keysOf] using ih

lemma map_incr_id {t : List (String × Int)} {n : String} (v : Int)
    (h : n ∉ keysOf t) :
    t.map (fun kv => if kv.1 = n then (kv.1, kv.2 + v) else kv) = t := by
  induction t with
  | nil => rfl
  | cons kv t ih =>
    simp [keysOf] at h
    have hne : kv.1 ≠ n := fun he => h.1 he.symm
    simp [hne]
    exact ih (by simpa [keysOf] using h.2)

lemma keysOf_cons (kv : String × Int) (t : List (String × Int)) :
    keysOf (kv :: t) = kv.1 :: keysOf t := rfl

lemma sumAt_map_incr {b : List (String × Int)} {n : String} (v : Int)
    (k : String) (hnd : (keysOf b).Nodup) :
    sumAt (b.map (fun kv => if kv.1 = n then (kv.1, kv.2 + v) else kv)) k
      = sumAt b k + (if k = n ∧ n ∈ keysOf b then v else 0) := by
  induction b with
  | nil => simp [sumAt, keysOf]
  | cons kv t ih =>
    rw [keysOf_cons] at hnd
    have hnd' : (keysOf t).Nodup := hnd.of_cons
    have hk1 : kv.1 ∉ keysOf t := (List.nodup_cons.mp hnd).1
    by_cases he : kv.1 = n
    · have ht := map_incr_id (t := t) (n := n) v (he ▸ hk1)
      simp only [List.map_cons, if_pos he, ht]
      rw [sumAt_cons, sumAt_cons]
      have hmem : n ∈ keysOf (kv :: t) := by rw [keysOf_cons, he]; simp
      by_cases hk : k = n
      · have h2 : kv.1 = k := by rw [he, hk]
        simp [h2, hk, hmem]
        ring
      · have h2 : ¬kv.1 = k := by rw [he]; exact fun hh => hk hh.symm
        simp [h2, hk]
    · simp only [List.map_cons, if_neg he]
      rw [sumAt_cons, sumAt_cons, ih hnd']
      have hcond : (k = n ∧ n ∈ keysOf (kv :: t)) ↔ (k = n ∧ n ∈ keysOf t) := by
        rw [keysOf_cons]
        constructor
        · rintro ⟨h1, h2⟩
          rcases List.mem_cons.mp h2 with h3 | h3
          · exact absurd h3.symm he
          · exact ⟨h1, h3⟩
        · rintro ⟨h1, h2⟩
          exact ⟨h1, List.mem_cons.mpr (Or.inr h2)⟩
      rw [if_congr hcond rfl rfl]
      ring

lemma bufAddAll_keys (p : List (String × Int)) :
    ∀ b, keysOf (bufAddAll b p).1 = keysOf b := by
  induction p with
  | nil => intro b; rfl
  | cons kv rest ih =>
    intro b
    unfold bufAddAll
    cases hbi : bufIncr b kv.1 kv.2 with
    | none => rfl
    | some b2 =>
      obtain ⟨_, hb2⟩ := bufIncr_some hbi
      rw [ih b2, hb2, keysOf_map_incr]

lemma bufAddAll_ok (p : List (String × Int)) :
    ∀ b, (∀ k ∈ keysOf p, k ∈ keysOf b) → (bufAddAll b p).2 = true := by
  induction p with
  | nil => intro b _; rfl
  | cons kv rest ih =>
    intro b hsub
    have hmem : kv.1 ∈ keysOf b := hsub kv.1 (by simp [keysOf])
    unfold bufAddAll
    rw [bufIncr_isSome kv.2 (dlookup_isSome_of_mem hmem)]
    apply ih
    intro k hk
    have : keysOf (b.map fun kv2 =>
        if kv2.1 = kv.1 then (kv2.1, kv2.2 + kv.2) else kv2) = keysOf b :=
      keysOf_map_incr b kv.1 kv.2
    rw [this]
    exact hsub k (by simp [keysOf]; right; simpa [keysOf] using hk)

lemma bufAddAll_sumAt (k : String) :
    ∀ (p b : List (String × Int)), (keysOf b).Nodup →
      (bufAddAll b p).2 = true →
      sumAt (bufAddAll b p).1 k = sumAt b k + sumAt p k := by
  intro p
  induction p with
  | nil => intro b _ _; simp [bufAddAll, sumAt]
  | cons kv rest ih =>
    intro b hnd hok
    unfold bufAddAll at hok ⊢
    cases hbi : bufIncr b kv.1 kv.2 with
    | none => rw [hbi] at hok; simp at hok
    | some b2 =>
      rw [hbi] at hok
      obtain ⟨hsome, hb2⟩ := bufIncr_some hbi
      have hmem : kv.1 ∈ keysOf b := mem_of_dlookup_isSome hsome
      have hnd2 : (keysOf b2).Nodup := by rw [hb2, keysOf_map_incr]; exact hnd
      rw [ih b2 hnd2 hok, hb2, sumAt_map_incr kv.2 k hnd, sumAt_cons]
      by_cases hk : k = kv.1
      · simp [hk, hmem]
        ring
      · have hne : ¬kv.1 = k := fun hh => hk hh.symm
        simp [hk, hne]

/-! ### Conservation of deltas through `add_async` -/

/-- An add-only workload: `add_async` calls whose delta dictionary has
exactly the key list `K`, interleaved with completions of the
outstanding add request. -/
def addKeysEv (K : List String) : PCEv → Bool
  | .addA _ p => decide (keysOf p = K)
  | .doneAdd => true
  | _ => false

lemma add_async_conserves (s : CState) (cd : Bool) (p : List (String × Int))
    (K : List String) (hK : K.Nodup) (hp : keysOf p = K)
    (hinv : s.addBuffer = [] ∨ keysOf s.addBuffer = K) :
    (add_async s cd p).2 = true ∧
      ((add_async s cd p).1.addBuffer = [] ∨
        keysOf (add_async s cd p).1.addBuffer = K) ∧
      ∀ k, sumSentAt (add_async s cd p).1 k
            + sumAt (add_async s cd p).1.addBuffer k
          = sumSentAt s k + sumAt s.addBuffer k + sumAt p k := by
  cases hbuf : s.addBuffer with
  | nil =>
    cases hfa : s.addFuture with
    | none =>
      refine ⟨by simp [add_async, hfa, hbuf], ?_, ?_⟩
      · left; simp [add_async, hfa, hbuf]
      · intro k
        simp [add_async, hfa, hbuf, sumSentAt, sumAt]
    | some b =>
      cases b
      · refine ⟨by simp [add_async, hfa, hbuf], ?_, ?_⟩
        · right; simp [add_async, hfa, hbuf, hp]
        · intro k
          simp [add_async, hfa, hbuf, sumSentAt, sumAt]
      · refine ⟨by simp [add_async, hfa, hbuf], ?_, ?_⟩
        · left; simp [add_async, hfa, hbuf]
        · intro k
          simp [add_async, hfa, hbuf, sumSentAt, sumAt]
  | cons hd tl =>
    have hbk : keysOf s.addBuffer = K := by
      rcases hinv with h | h
      · rw [hbuf] at h; exact absurd h (by simp)
      · exact h
    have hnd : (keysOf s.addBuffer).Nodup := hbk ▸ hK
    have hsub : ∀ x ∈ keysOf p, x ∈ keysOf s.addBuffer := by
      intro x hx
      rw [hbk]
      rw [hp] at hx
      exact hx
    have hok : (bufAddAll s.addBuffer p).2 = true := bufAddAll_ok p _ hsub
    have hkeys : keysOf (bufAddAll s.addBuffer p).1 = K :=
      (bufAddAll_keys p s.addBuffer).trans hbk
    have hsum : ∀ k, sumAt (bufAddAll s.addBuffer p).1 k
        = sumAt s.addBuffer k + sumAt p k :=
      fun k => bufAddAll_sumAt k p s.addBuffer hnd hok
    rw [hbuf] at hok hkeys hsum
    cases hfa : s.addFuture with
    | none =>
      refine ⟨by simp [add_async, hfa, hbuf, hok], ?_, ?_⟩
      · left; simp [add_async, hfa, hbuf, hok]
      · intro k
        have := hsum k
        simp [add_async, hfa, hbuf, hok, sumSentAt, sumAt] at this ⊢
        omega
    | some b =>
      cases b
      · refine ⟨by simp [add_async, hfa, hbuf, hok], ?_, ?_⟩
        · right; simpa [add_async, hfa, hbuf, hok] using hkeys
        · intro k
          have := hsum k
          simp [add_async, hfa, hbuf, hok, sumSentAt, sumAt] at this ⊢
          omega
      · refine ⟨by simp [add_async, hfa, hbuf, hok], ?_, ?_⟩
        · left; simp [add_async, hfa, hbuf, hok]
        · intro k
          have := hsum k
          simp [add_async, hfa, hbuf, hok, sumSentAt, sumAt] at this ⊢
          omega

lemma runPC_cons (s : CState) (e : PCEv) (rest : List PCEv) :
    runPC s (e :: rest)
      = if (stepPC s e).2 = true then runPC (stepPC s e).1 rest
        else ((stepPC s e).1, false) := rfl

lemma addRun_conserves (K : List String) (hK : K.Nodup) :
    ∀ (evs : List PCEv) (s : CState),
      evs.all (addKeysEv K) = true →
      (s.addBuffer = [] ∨ keysOf s.addBuffer = K) →
      (runPC s evs).2 = true ∧
        ((runPC s evs).1.addBuffer = [] ∨
          keysOf (runPC s evs).1.addBuffer = K) ∧
        ∀ k, sumSentAt (runPC s evs).1 k + sumAt (runPC s evs).1.addBuffer k
            = sumSentAt s k + sumAt s.addBuffer k + sumPassedAdds evs k := by
  intro evs
  induction evs with
  | nil =>
    intro s _ hinv
    exact ⟨rfl, hinv, by simp [runPC, sumPassedAdds]⟩
  | cons e rest ih =>
    intro s hall hinv
    rw [List.all_cons, Bool.and_eq_true] at hall
    obtain ⟨he, hall'⟩ := hall
    cases e with
    | addA cd p =>
      have hp : keysOf p = K := by simpa [addKeysEv] using he
      obtain ⟨hok, hinv2, hsum⟩ := add_async_conserves s cd p K hK hp hinv
      have hstep : stepPC s (.addA cd p) = add_async s cd p := rfl
      obtain ⟨rok, rinv, rsum⟩ := ih (add_async s cd p).1 hall' hinv2
      rw [runPC_cons, hstep, if_pos hok]
      refine ⟨rok, rinv, ?_⟩
      intro k
      have h1 := rsum k
      have h2 := hsum k
      have h3 : sumPassedAdds (PCEv.addA cd p :: rest) k
          = sumAt p k + sumPassedAdds rest k := by
        simp [sumPassedAdds]
      rw [h3]
      omega
    | doneAdd =>
      have hstep : stepPC s .doneAdd = (completeAdd s, true) := rfl
      have hpres : (completeAdd s).addBuffer = s.addBuffer ∧
          (completeAdd s).addSent = s.addSent := by
        unfold completeAdd; cases s.addFuture <;> simp
      obtain ⟨rok, rinv, rsum⟩ := ih (completeAdd s) hall'
        (by rw [hpres.1]; exact hinv)
      rw [runPC_cons, hstep]
      simp only [if_pos]
      refine ⟨rok, rinv, ?_⟩
      intro k
      have h1 := rsum k
      have h3 : sumPassedAdds (PCEv.doneAdd :: rest) k
          = sumPassedAdds rest k := by simp [sumPassedAdds]
      rw [h3]
      have h4 : sumSentAt (completeAdd s) k = sumSentAt s k := by
        unfold sumSentAt
        rw [hpres.2]
      rw [h4, hpres.1] at h1
      omega
    | getA cd resp => simp [addKeysEv] at he
    | setA cd q => simp [addKeysEv] at he
    | setGetA cds cdg resp => simp [addKeysEv] at he
    | doneGet => simp [addKeysEv] at he
    | doneSet => simp [addKeysEv] at he
    | doneSetGetS => simp [addKeysEv] at he
    | doneSetGetG => simp [addKeysEv] at he

/-! ### Claims C1 and C4: delta accumulation in `add_async` -/

/-- A run of three back-to-back `add_async` calls over differing key
sets while the first request is still in flight. -/
def mixedKeyAdds : List PCEv :=
  [.addA false [("a", 1)], .addA false [("b", 1)], .addA false [("a", 1)]]

/-- A same-key workload: three quick adds, one completion, one more add. -/
def sameKeyAdds : List PCEv :=
  [.addA false [("c", 1)], .addA false [("c", 1)], .doneAdd,
   .addA false [("c", 1)]]

/-- C1 (counterexample): with deltas over differing key sets the claimed
conservation fails — the third `add_async` call raises `KeyError`
(line 231: `self._async_add_buffer[name] += params[name]` with `"a"` not
a buffer key), and the key `"a"` has been passed a total delta of 2 but
only 1 was delivered or retained. -/
theorem claim_C1_cex :
    (runPC (initC 1 true [] [] []) mixedKeyAdds).2 = false ∧
    sumSentAt (runPC (initC 1 true [] [] []) mixedKeyAdds).1 "a"
      + sumAt (runPC (initC 1 true [] [] []) mixedKeyAdds).1.addBuffer "a"
      = 1 ∧
    sumPassedAdds mixedKeyAdds "a" = 2 := by
  decide

/-- C1 (amended): for every sequence of `add_async` calls on a single
client in which every call passes a delta dictionary over one fixed key
set, no call raises, and the key-wise total of the deltas handed to the
server plus the deltas still held in the accumulation buffer equals the
key-wise total of all deltas passed in — no delta is lost or
double-counted, whatever the completion schedule. -/
theorem claim_C1 (P : Nat) (m : Bool) (ps : Params) (gk sk : List String)
    (K : List String) (evs : List PCEv) (hK : K.Nodup)
    (hall : evs.all (addKeysEv K) = true) :
    (runPC (initC P m ps gk sk) evs).2 = true ∧
    ∀ k, sumSentAt (runPC (initC P m ps gk sk) evs).1 k
          + sumAt (runPC (initC P m ps gk sk) evs).1.addBuffer k
        = sumPassedAdds evs k := by
  obtain ⟨hok, _, hsum⟩ :=
    addRun_conserves K hK evs (initC P m ps gk sk) hall (Or.inl rfl)
  refine ⟨hok, fun k => ?_⟩
  have h0 : sumSentAt (initC P m ps gk sk) k = 0 := by
    simp [initC, sumSentAt]
  have h1 : sumAt (initC P m ps gk sk).addBuffer k = 0 := by
    simp [initC, sumAt]
  rw [hsum k, h0, h1]
  omega

/-- C1 witness: the amended theorem evaluated on the concrete same-key
workload. -/
theorem claim_C1_witness :
    (runPC (initC 1 true [] [] []) sameKeyAdds).2 = true ∧
    sumSentAt (runPC (initC 1 true [] [] []) sameKeyAdds).1 "c"
      + sumAt (runPC (initC 1 true [] [] []) sameKeyAdds).1.addBuffer "c"
      = sumPassedAdds sameKeyAdds "c" :=
  ⟨(claim_C1 1 true [] [] [] ["c"] sameKeyAdds (by decide) (by decide)).1,
   (claim_C1 1 true [] [] [] ["c"] sameKeyAdds (by decide) (by decide)).2 "c"⟩

/-- C4 (counterexample): a delta arriving while an add is outstanding is
NOT always accumulated into the pending buffer: from a reachable state
whose buffer holds only `"b"`, `add_async({"a": 1})` raises `KeyError`
and the delta for `"a"` is dropped rather than accumulated. -/
theorem claim_C4_cex :
    ((runPC (initC 1 true [] [] [])
        [.addA false [("x", 1)], .addA false [("b", 1)]]).1.addFuture
      = some false) ∧
    (add_async (runPC (initC 1 true [] [] [])
        [.addA false [("x", 1)], .addA false [("b", 1)]]).1
        false [("a", 1)]).2 = false ∧
    sumAt (add_async (runPC (initC 1 true [] [] [])
        [.addA false [("x", 1)], .addA false [("b", 1)]]).1
        false [("a", 1)]).1.addBuffer "a" = 0 := by
  decide

/-- C4 (amended): while a previous add request is outstanding and not
yet completed, a new delta is stashed instead of issued: into an empty
buffer verbatim, and into a nonempty buffer by key-wise summation
PROVIDED every key of the delta already occurs in the buffer (a key
missing from a nonempty buffer raises `KeyError` instead).  When a later
call finds the in-flight add completed and the buffer nonempty, the
buffered deltas combined with the new delta are flushed as one single
add request and the buffer is emptied. -/
theorem claim_C4 (s : CState) (cd : Bool) (p : List (String × Int))
    (hnd : (keysOf s.addBuffer).Nodup)
    (hsub : s.addBuffer = [] ∨ ∀ x ∈ keysOf p, x ∈ keysOf s.addBuffer) :
    (s.addFuture = some false →
      (add_async s cd p).2 = true ∧
      (add_async s cd p).1.addSent = s.addSent ∧
      (add_async s cd p).1.issuedAdd = s.issuedAdd ∧
      ∀ k, sumAt (add_async s cd p).1.addBuffer k
          = sumAt s.addBuffer k + sumAt p k) ∧
    (s.addFuture = some true → ¬s.addBuffer = [] →
      (add_async s cd p).2 = true ∧
      (add_async s cd p).1.addBuffer = [] ∧
      (add_async s cd p).1.addSent
        = s.addSent ++ [(bufAddAll s.addBuffer p).1] ∧
      ∀ k, sumAt (bufAddAll s.addBuffer p).1 k
          = sumAt s.addBuffer k + sumAt p k) := by
  constructor
  · intro hfa
    cases hbuf : s.addBuffer with
    | nil =>
      refine ⟨by simp [add_async, hfa, hbuf], by simp [add_async, hfa, hbuf],
        by simp [add_async, hfa, hbuf], ?_⟩
      intro k
      simp [add_async, hfa, hbuf, sumAt]
    | cons hd tl =>
      have hsub' : ∀ x ∈ keysOf p, x ∈ keysOf s.addBuffer := by
        rcases hsub with h | h
        · rw [hbuf] at h; exact absurd h (by simp)
        · exact h
      have hok : (bufAddAll s.addBuffer p).2 = true := bufAddAll_ok p _ hsub'
      have hsum : ∀ k, sumAt (bufAddAll s.addBuffer p).1 k
          = sumAt s.addBuffer k + sumAt p k :=
        fun k => bufAddAll_sumAt k p s.addBuffer hnd hok
      rw [hbuf] at hok hsum
      refine ⟨by simp [add_async, hfa, hbuf, hok],
        by simp [add_async, hfa, hbuf, hok],
        by simp [add_async, hfa, hbuf, hok], ?_⟩
      intro k
      simp [add_async, hfa, hbuf, hok]
      exact hsum k
  · intro hfa hne
    cases hbuf : s.addBuffer with
    | nil => exact absurd hbuf hne
    | cons hd tl =>
      have hsub' : ∀ x ∈ keysOf p, x ∈ keysOf s.addBuffer := by
        rcases hsub with h | h
        · exact absurd h hne
        · exact h
      have hok : (bufAddAll s.addBuffer p).2 = true := bufAddAll_ok p _ hsub'
      have hsum : ∀ k, sumAt (bufAddAll s.addBuffer p).1 k
          = sumAt s.addBuffer k + sumAt p k :=
        fun k => bufAddAll_sumAt k p s.addBuffer hnd hok
      rw [hbuf] at hok hsum
      refine ⟨by simp [add_async, hfa, hbuf, hok],
        by simp [add_async, hfa, hbuf, hok], ?_, hsum⟩
      simp [add_async, hfa, hbuf, hok]

/-- A reachable client state with an add in flight and a buffered delta
for key `"c"`. -/
def c4wState : CState :=
  { initC 1 true [] [] [] with
      addFuture := some false,
      addBuffer := [("c", 2)] }

/-- C4 witness: the amended theorem evaluated at a state whose buffer
holds `"c"`, with an incoming delta over the same key, while the add
request is still outstanding. -/
theorem claim_C4_witness :
    (add_async c4wState false [("c", 3)]).2 = true ∧
    sumAt (add_async c4wState false [("c", 3)]).1.addBuffer "c"
      = sumAt [("c", 2)] "c" + sumAt [("c", 3)] "c" := by
  have h := (claim_C4 c4wState false [("c", 3)] (by decide)
    (Or.inr (by decide))).1 rfl
  exact ⟨h.1, h.2.2.2 "c"⟩

/-! ### At most one outstanding request per kind (claim C2) -/

lemma get_issue_ghost (s : CState) (cd : Bool) (resp : Params) :
    (get_issue s cd resp).issuedSet = s.issuedSet ∧
    (get_issue s cd resp).issuedSetGet = s.issuedSetGet ∧
    (get_issue s cd resp).issuedAdd = s.issuedAdd ∧
    ((get_issue s cd resp).issuedGet = s.issuedGet ∨ s.getFuture = none) := by
  simp only [get_issue]
  split <;> split <;>
    first
    | exact ⟨rfl, rfl, rfl, Or.inl rfl⟩
    | (next h =>
        rw [Bool.and_eq_true] at h
        exact ⟨rfl, rfl, rfl,
          Or.inr (Option.isNone_iff_eq_none.mp h.2)⟩)

lemma get_poll_ghost (s : CState) :
    (get_poll s).1.issuedGet = s.issuedGet ∧
    (get_poll s).1.issuedSet = s.issuedSet ∧
    (get_poll s).1.issuedSetGet = s.issuedSetGet ∧
    (get_poll s).1.issuedAdd = s.issuedAdd := by
  unfold get_poll
  cases hgf : s.getFuture with
  | none => simp
  | some br =>
    obtain ⟨b, r⟩ := br
    cases b
    · simp
    · cases hc : (copyP s.params r).2 <;> simp [hc]

lemma set_async_ghost (s : CState) (cd : Bool)
    (p : Option (List (String × PValue))) :
    (set_async s cd p).1.issuedGet = s.issuedGet ∧
    (set_async s cd p).1.issuedSetGet = s.issuedSetGet ∧
    (set_async s cd p).1.issuedAdd = s.issuedAdd ∧
    ((set_async s cd p).1.issuedSet = s.issuedSet ∨ s.setFuture = none) := by
  cases hsf : s.setFuture with
  | none =>
    refine ⟨?_, ?_, ?_, Or.inr rfl⟩ <;>
      · simp only [set_async, hsf]
        repeat' split
        all_goals simp_all
  | some b =>
    refine ⟨?_, ?_, ?_, Or.inl ?_⟩ <;>
      · simp only [set_async, hsf]
        cases b <;> repeat' split
        all_goals simp_all

lemma aar_ghost (s : CState) (cds cdg : Bool) (resp : Params) :
    (async_adjust_and_request s cds cdg resp).1.issuedGet = s.issuedGet ∧
    (async_adjust_and_request s cds cdg resp).1.issuedSet = s.issuedSet ∧
    (async_adjust_and_request s cds cdg resp).1.issuedAdd = s.issuedAdd := by
  simp only [async_adjust_and_request, adjust_and_request]
  split
  · simp
  · split <;> simp

lemma set_and_get_async_ghost (s : CState) (cds cdg : Bool) (resp : Params) :
    (set_and_get_async s cds cdg resp).1.issuedGet = s.issuedGet ∧
    (set_and_get_async s cds cdg resp).1.issuedSet = s.issuedSet ∧
    (set_and_get_async s cds cdg resp).1.issuedAdd = s.issuedAdd ∧
    ((set_and_get_async s cds cdg resp).1.issuedSetGet = s.issuedSetGet ∨
      s.setGetFuture = none) := by
  obtain ⟨h1, h2, h3⟩ := aar_ghost s cds cdg resp
  cases hsgf : s.setGetFuture with
  | none =>
    refine ⟨?_, ?_, ?_, Or.inr rfl⟩ <;>
      · simp only [set_and_get_async, hsgf]
        repeat' split
        all_goals simp_all
  | some tr =>
    obtain ⟨ds, dgr⟩ := tr
    obtain ⟨dg, r⟩ := dgr
    refine ⟨?_, ?_, ?_, Or.inl ?_⟩ <;>
      · simp only [set_and_get_async, hsgf]
        cases ds <;> cases dg <;> repeat' split
        all_goals simp_all

lemma add_async_ghost (s : CState) (cd : Bool) (p : List (String × Int)) :
    (add_async s cd p).1.issuedGet = s.issuedGet ∧
    (add_async s cd p).1.issuedSet = s.issuedSet ∧
    (add_async s cd p).1.issuedSetGet = s.issuedSetGet ∧
    ((add_async s cd p).1.issuedAdd = s.issuedAdd ∨
      s.addFuture = none ∨ s.addFuture = some true) := by
  cases hfa : s.addFuture with
  | none =>
    refine ⟨?_, ?_, ?_, Or.inr (Or.inl rfl)⟩ <;>
      · simp only [add_async, hfa]
        repeat' split
        all_goals simp_all
  | some b =>
    cases b
    · refine ⟨?_, ?_, ?_, Or.inl ?_⟩ <;>
        · simp only [add_async, hfa]
          repeat' split
          all_goals simp_all
    · refine ⟨?_, ?_, ?_, Or.inr (Or.inr rfl)⟩ <;>
        · simp only [add_async, hfa]
          repeat' split
          all_goals simp_all

lemma complete_ghost (s : CState) (e : PCEv)
    (he : e = .doneGet ∨ e = .doneSet ∨ e = .doneSetGetS ∨
      e = .doneSetGetG ∨ e = .doneAdd) :
    (stepPC s e).1.issuedGet = s.issuedGet ∧
    (stepPC s e).1.issuedSet = s.issuedSet ∧
    (stepPC s e).1.issuedSetGet = s.issuedSetGet ∧
    (stepPC s e).1.issuedAdd = s.issuedAdd := by
  rcases he with h | h | h | h | h <;> subst h <;>
    simp only [stepPC, completeGet, completeSet, completeSetGetS,
      completeSetGetG, completeAdd] <;>
    split <;> simp

lemma c2_combine {s s' : CState}
    (hg : s'.issuedGet = s.issuedGet ∨ s.getFuture = none)
    (hs : s'.issuedSet = s.issuedSet ∨ s.setFuture = none)
    (hsg : s'.issuedSetGet = s.issuedSetGet ∨ s.setGetFuture = none)
    (ha : s'.issuedAdd = s.issuedAdd ∨ s.addFuture = none ∨
      s.addFuture = some true) :
    (s'.issuedGet > s.issuedGet → unresolvedGet s = 0) ∧
    (s'.issuedSet > s.issuedSet → unresolvedSet s = 0) ∧
    (s'.issuedSetGet > s.issuedSetGet → unresolvedSetGet s = 0) ∧
    (s'.issuedAdd > s.issuedAdd → unresolvedAdd s = 0) := by
  refine ⟨fun hi => ?_, fun hi => ?_, fun hi => ?_, fun hi => ?_⟩
  · rcases hg with h | h
    · omega
    · simp [unresolvedGet, h]
  · rcases hs with h | h
    · omega
    · simp [unresolvedSet, h]
  · rcases hsg with h | h
    · omega
    · simp [unresolvedSetGet, h]
  · rcases ha with h | h | h
    · omega
    · simp [unresolvedAdd, h]
    · simp [unresolvedAdd, h]

/-- C2: a new request of a given kind is only issued when the prior
request of that kind is resolved (for get, set, and combined
set-and-get the slot must in fact be empty; for add the slot is empty
or already completed), and the number of outstanding operations over
the four kinds never exceeds 4. -/
theorem claim_C2 (s : CState) (ev : PCEv) :
    ((stepPC s ev).1.issuedGet > s.issuedGet → unresolvedGet s = 0) ∧
    ((stepPC s ev).1.issuedSet > s.issuedSet → unresolvedSet s = 0) ∧
    ((stepPC s ev).1.issuedSetGet > s.issuedSetGet →
      unresolvedSetGet s = 0) ∧
    ((stepPC s ev).1.issuedAdd > s.issuedAdd → unresolvedAdd s = 0) ∧
    outstandingOps s ≤ 4 := by
  have hout : outstandingOps s ≤ 4 := by
    unfold outstandingOps
    split_ifs <;> omega
  cases ev with
  | getA cd resp =>
    obtain ⟨h1, h2, h3, h4⟩ := get_issue_ghost s cd resp
    obtain ⟨g1, g2, g3, g4⟩ := get_poll_ghost (get_issue s cd resp)
    have hc := @c2_combine s ((stepPC s (.getA cd resp)).1)
      (by rcases h4 with h | h
          · exact Or.inl ((g1.trans h))
          · exact Or.inr h)
      (Or.inl (g2.trans h1)) (Or.inl (g3.trans h2)) (Or.inl (g4.trans h3))
    exact ⟨hc.1, hc.2.1, hc.2.2.1, hc.2.2.2, hout⟩
  | setA cd p =>
    obtain ⟨h1, h2, h3, h4⟩ := set_async_ghost s cd p
    have hc := @c2_combine s ((stepPC s (.setA cd p)).1)
      (Or.inl h1) h4 (Or.inl h2) (Or.inl h3)
    exact ⟨hc.1, hc.2.1, hc.2.2.1, hc.2.2.2, hout⟩
  | setGetA cds cdg resp =>
    obtain ⟨h1, h2, h3, h4⟩ := set_and_get_async_ghost s cds cdg resp
    have hc := @c2_combine s ((stepPC s (.setGetA cds cdg resp)).1)
      (Or.inl h1) (Or.inl h2)
      (by rcases h4 with h | h
          · exact Or.inl h
          · exact Or.inr h)
      (Or.inl h3)
    exact ⟨hc.1, hc.2.1, hc.2.2.1, hc.2.2.2, hout⟩
  | addA cd p =>
    obtain ⟨h1, h2, h3, h4⟩ := add_async_ghost s cd p
    have hc := @c2_combine s ((stepPC s (.addA cd p)).1)
      (Or.inl h1) (Or.inl h2) (Or.inl h3) h4
    exact ⟨hc.1, hc.2.1, hc.2.2.1, hc.2.2.2, hout⟩
  | doneGet =>
    obtain ⟨h1, h2, h3, h4⟩ := complete_ghost s .doneGet (Or.inl rfl)
    have hc := @c2_combine s ((stepPC s .doneGet).1)
      (Or.inl h1) (Or.inl h2) (Or.inl h3) (Or.inl h4)
    exact ⟨hc.1, hc.2.1, hc.2.2.1, hc.2.2.2, hout⟩
  | doneSet =>
    obtain ⟨h1, h2, h3, h4⟩ := complete_ghost s .doneSet (Or.inr (Or.inl rfl))
    have hc := @c2_combine s ((stepPC s .doneSet).1)
      (Or.inl h1) (Or.inl h2) (Or.inl h3) (Or.inl h4)
    exact ⟨hc.1, hc.2.1, hc.2.2.1, hc.2.2.2, hout⟩
  | doneSetGetS =>
    obtain ⟨h1, h2, h3, h4⟩ := complete_ghost s .doneSetGetS
      (Or.inr (Or.inr (Or.inl rfl)))
    have hc := @c2_combine s ((stepPC s .doneSetGetS).1)
      (Or.inl h1) (Or.inl h2) (Or.inl h3) (Or.inl h4)
    exact ⟨hc.1, hc.2.1, hc.2.2.1, hc.2.2.2, hout⟩
  | doneSetGetG =>
    obtain ⟨h1, h2, h3, h4⟩ := complete_ghost s .doneSetGetG
      (Or.inr (Or.inr (Or.inr (Or.inl rfl))))
    have hc := @c2_combine s ((stepPC s .doneSetGetG).1)
      (Or.inl h1) (Or.inl h2) (Or.inl h3) (Or.inl h4)
    exact ⟨hc.1, hc.2.1, hc.2.2.1, hc.2.2.2, hout⟩
  | doneAdd =>
    obtain ⟨h1, h2, h3, h4⟩ := complete_ghost s .doneAdd
      (Or.inr (Or.inr (Or.inr (Or.inr rfl))))
    have hc := @c2_combine s ((stepPC s .doneAdd).1)
      (Or.inl h1) (Or.inl h2) (Or.inl h3) (Or.inl h4)
    exact ⟨hc.1, hc.2.1, hc.2.2.1, hc.2.2.2, hout⟩

/-- C2 witness: a fresh client with period 1 issues a get on the first
call — the theorem's issuance hypothesis holds concretely, and the
pre-state indeed had no unresolved get request. -/
theorem claim_C2_witness :
    unresolvedGet (initC 1 true [] ["a"] []) = 0 ∧
    outstandingOps (initC 1 true [] ["a"] []) ≤ 4 :=
  ⟨(claim_C2 (initC 1 true [] ["a"] []) (.getA false [])).1 (by decide),
   (claim_C2 (initC 1 true [] ["a"] []) (.getA false [])).2.2.2.2⟩

/-! ### Claim C3: periodicity of `get_async` -/

lemma get_async_quiet (s : CState) (resp : Params)
    (hfut : s.getFuture = none)
    (hlt : s.getCallCounter + 1 < s.updatePeriod) :
    get_async s false resp
      = ({ s with getCallCounter := s.getCallCounter + 1 }, true) := by
  have hc : s.getCallCounter < s.updatePeriod := by omega
  have hnr : ¬s.updatePeriod ≤ s.getCallCounter + 1 := by omega
  simp [get_async, get_issue, get_poll, hfut, hc, hnr]

lemma get_async_fire (s : CState) (resp : Params)
    (hfut : s.getFuture = none)
    (hge : s.updatePeriod ≤ s.getCallCounter + 1) :
    get_async s false resp
      = ({ s with
            getCallCounter := 0,
            getFuture := some (false, resp),
            issuedGet := s.issuedGet + 1,
            getReqKeys := s.getReqKeys ++ [s.getKeys] }, true) := by
  by_cases hc : s.getCallCounter < s.updatePeriod
  · simp [get_async, get_issue, get_poll, hfut, hc, hge]
  · have hge2 : s.updatePeriod ≤ s.getCallCounter := by omega
    simp [get_async, get_issue, get_poll, hfut, hc, hge2]

lemma runPC_append (s : CState) (l1 l2 : List PCEv) :
    runPC s (l1 ++ l2)
      = if (runPC s l1).2 = true then runPC (runPC s l1).1 l2
        else runPC s l1 := by
  induction l1 generalizing s with
  | nil => simp [runPC]
  | cons e rest ih =>
    rw [List.cons_append, runPC_cons, runPC_cons]
    by_cases hok : (stepPC s e).2 = true
    · rw [if_pos hok, if_pos hok, ih]
    · rw [if_neg hok, if_neg hok]
      simp

lemma getrun_quiet (P : Nat) (m : Bool) (ps : Params) (gk sk : List String)
    (resp : Params) :
    ∀ (j c : Nat), c + j < P →
      runPC { initC P m ps gk sk with getCallCounter := c }
          (List.replicate j (.getA false resp))
        = ({ initC P m ps gk sk with getCallCounter := c + j }, true) := by
  intro j
  induction j with
  | zero => intro c h; simp [runPC]
  | succ n ih =>
    intro c h
    rw [List.replicate_succ, runPC_cons]
    have hstep : stepPC { initC P m ps gk sk with getCallCounter := c }
        (.getA false resp)
        = ({ initC P m ps gk sk with getCallCounter := c + 1 }, true) := by
      show get_async { initC P m ps gk sk with getCallCounter := c } false resp
        = ({ initC P m ps gk sk with getCallCounter := c + 1 }, true)
      rw [get_async_quiet _ resp (by simp [initC]) (by simp [initC]; omega)]
    rw [hstep]
    simp only [if_pos]
    have h2 := ih (c + 1) (by omega)
    rw [h2]
    have h3 : c + 1 + n = c + (n + 1) := by omega
    rw [h3]

/-- C3: a freshly constructed client with `update_period = P ≥ 1` and no
outstanding get request issues no server request during the first `P - 1`
calls to `get_async`, and the `P`-th call issues exactly one request and
resets the internal call counter to 0. -/
theorem claim_C3 (P : Nat) (m : Bool) (ps : Params) (gk sk : List String)
    (resp : Params) (n : Nat) (hP : 1 ≤ P) (hn : n < P) :
    totalIssued (runPC (initC P m ps gk sk)
        (List.replicate n (.getA false resp))).1 = 0 ∧
    (runPC (initC P m ps gk sk)
        (List.replicate P (.getA false resp))).1.issuedGet = 1 ∧
    totalIssued (runPC (initC P m ps gk sk)
        (List.replicate P (.getA false resp))).1 = 1 ∧
    (runPC (initC P m ps gk sk)
        (List.replicate P (.getA false resp))).1.getCallCounter = 0 := by
  have hinit : initC P m ps gk sk
      = { initC P m ps gk sk with getCallCounter := 0 } := rfl
  obtain ⟨Q, rfl⟩ : ∃ Q, P = Q + 1 := ⟨P - 1, by omega⟩
  constructor
  · rw [hinit, getrun_quiet (Q + 1) m ps gk sk resp n 0 (by omega)]
    simp [totalIssued, initC]
  · have hq := getrun_quiet (Q + 1) m ps gk sk resp Q 0 (by omega)
    rw [hinit, List.replicate_succ' Q, runPC_append, hq]
    simp only [if_pos]
    have hfire := get_async_fire
      { initC (Q + 1) m ps gk sk with getCallCounter := 0 + Q } resp
      (by simp [initC]) (by simp [initC])
    have hstep : runPC ({ initC (Q + 1) m ps gk sk with
        getCallCounter := 0 + Q }) [.getA false resp]
        = (({ initC (Q + 1) m ps gk sk with
              getCallCounter := 0,
              getFuture := some (false, resp),
              issuedGet := 0 + 1,
              getReqKeys := [] ++ [gk] }), true) := by
      rw [runPC_cons]
      have hone : stepPC { initC (Q + 1) m ps gk sk with getCallCounter := 0 + Q }
          (.getA false resp)
          = ({ initC (Q + 1) m ps gk sk with
                getCallCounter := 0,
                getFuture := some (false, resp),
                issuedGet := 0 + 1,
                getReqKeys := [] ++ [gk] }, true) := by
        show get_async _ false resp = _
        rw [hfire]
        rfl
      rw [hone]
      simp [runPC]
    rw [hstep]
    refine ⟨by simp, by simp [totalIssued, initC], by simp⟩

/-- C3 witness: with `update_period = 3`, two calls issue nothing and
the third issues exactly one request. -/
theorem claim_C3_witness :
    totalIssued (runPC (initC 3 true [] ["a"] [])
        (List.replicate 2 (.getA false []))).1 = 0 ∧
    (runPC (initC 3 true [] ["a"] [])
        (List.replicate 3 (.getA false []))).1.issuedGet = 1 ∧
    totalIssued (runPC (initC 3 true [] ["a"] [])
        (List.replicate 3 (.getA false []))).1 = 1 ∧
    (runPC (initC 3 true [] ["a"] [])
        (List.replicate 3 (.getA false []))).1.getCallCounter = 0 :=
  claim_C3 3 true [] ["a"] [] [] 2 (by decide) (by decide)

/-! ### Claim C6: when the merge is applied relative to the issuing call -/

/-- A one-key replica holding a scalar-shaped array with identity 0. -/
def c6Replica : Params := [("a", .arr { oid := 0, shape := [], data := [5] })]

/-- The server's response for that key. -/
def c6Resp : Params := [("a", .arr { oid := 1, shape := [], data := [7] })]

/-- C6 (counterexample): in single-process mode the freshly issued
request is a `DoneFuture`, already complete when line 162 polls it, so
the very call that issued the request also applies the merge: one
`get_async` call both increments the issue count and rewrites the
replica. -/
theorem claim_C6_cex :
    (get_async (initC 1 false c6Replica ["a"] []) doneFutureDone
        c6Resp).1.issuedGet = 1 ∧
    (get_async (initC 1 false c6Replica ["a"] []) doneFutureDone c6Resp).1.params
      = [("a", .arr { oid := 0, shape := [], data := [7] })] ∧
    ¬(get_async (initC 1 false c6Replica ["a"] []) doneFutureDone
        c6Resp).1.params = c6Replica := by
  decide

/-- C6 (amended): the merge is applied by the first `get_async` call
that observes the response completed.  When the issued request is not
complete within the issuing call (as in multi-process mode), the issuing
call never applies the merge — the replica update happens on a strictly
later call; moreover a call that enters with an occupied future slot
never issues.  In single-process mode the issuing call itself applies
the merge (see the counterexample). -/
theorem claim_C6 (s : CState) (cd : Bool) (resp : Params) :
    ((get_async s false resp).1.issuedGet > s.issuedGet →
      (get_async s false resp).1.params = s.params) ∧
    (¬s.getFuture = none →
      (get_async s cd resp).1.issuedGet = s.issuedGet) := by
  constructor
  · intro hinc
    by_cases hcond : (decide (s.updatePeriod ≤
        if s.getCallCounter < s.updatePeriod then s.getCallCounter + 1
        else s.getCallCounter) && s.getFuture.isNone) = true
    · have hiss : get_issue s false resp
          = { s with
                getFuture := some (false, resp),
                getCallCounter := 0,
                issuedGet := s.issuedGet + 1,
                getReqKeys := s.getReqKeys ++ [s.getKeys] } := by
        simp only [get_issue]
        rw [if_pos hcond]
      show (get_poll (get_issue s false resp)).1.params = s.params
      rw [hiss]
      simp [get_poll]
    · exfalso
      have hiss : get_issue s false resp
          = { s with getCallCounter :=
                if s.getCallCounter < s.updatePeriod then s.getCallCounter + 1
                else s.getCallCounter } := by
        simp only [get_issue]
        rw [if_neg hcond]
      have hgp := (get_poll_ghost (get_issue s false resp)).1
      have hieq : (get_issue s false resp).issuedGet = s.issuedGet := by
        rw [hiss]
      have hinc2 : (get_poll (get_issue s false resp)).1.issuedGet
          > s.issuedGet := hinc
      omega
  · intro hne
    have hiso : s.getFuture.isNone = false := by
      cases hgf : s.getFuture
      · exact absurd hgf hne
      · rfl
    have hiss : (get_issue s cd resp).issuedGet = s.issuedGet := by
      simp only [get_issue]
      rw [hiso]
      simp
    have hgp := (get_poll_ghost (get_issue s cd resp)).1
    exact hgp.trans hiss

/-- A client with an in-flight, not yet completed get request. -/
def c6wState : CState :=
  { initC 1 true c6Replica ["a"] [] with getFuture := some (false, c6Resp) }

/-- C6 witness: a multi-process issuing call leaves the replica
untouched, and a call entering with an occupied slot issues nothing. -/
theorem claim_C6_witness :
    (get_async (initC 1 true c6Replica ["a"] []) false c6Resp).1.params
      = (initC 1 true c6Replica ["a"] []).params ∧
    (get_async c6wState false c6Resp).1.issuedGet = c6wState.issuedGet :=
  ⟨(claim_C6 (initC 1 true c6Replica ["a"] []) false c6Resp).1 (by decide),
   (claim_C6 c6wState false c6Resp).2 (by decide)⟩

/-! ### Claim C5: the combined set-then-get request -/

/-- A single-process client that tracks `"a"` and `"b"`, refreshes both
and pushes `"a"`. -/
def c5State : CState :=
  initC 1 false
    [("a", .arr { oid := 0, shape := [], data := [1] }),
     ("b", .arr { oid := 1, shape := [], data := [2] })]
    ["a", "b"] ["a"]

/-- A server response covering both tracked keys. -/
def c5Resp : Params :=
  [("a", .arr { oid := 2, shape := [], data := [3] }),
   ("b", .arr { oid := 3, shape := [], data := [4] })]

/-- C5 (counterexample): in single-process mode a triggered
`set_and_get_async` requests the FULL `_get_keys` list (line 118), not
the set difference `get_keys − set_keys` that the multi-process path
computes at line 139. -/
theorem claim_C5_cex :
    (set_and_get_async c5State false false c5Resp).1.getReqKeys
      = [["a", "b"]] ∧
    c5State.getKeys.filter (fun k => !(c5State.setKeys.contains k))
      = ["b"] := by
  decide

/-- C5 (amended): whenever `set_and_get_async` is triggered (periodic
gate reached, no combined request outstanding) it pushes the `set_keys`
subset of the replica; in multi-process mode the get half requests
exactly the set difference `get_keys − set_keys` and the replica is
merged via `_copy` when that get future completes, while in
single-process mode the get half requests the full `get_keys` list and
the merge happens within the call. -/
theorem claim_C5 (s : CState) (cds cdg : Bool) (resp : Params)
    (htrig : s.updatePeriod ≤ s.setGetCallCounter + 1)
    (hfut : s.setGetFuture = none) :
    (s.multiProcess = true →
      (set_and_get_async s cds cdg resp).1.setSent
        = s.setSent ++ [pushSet s] ∧
      (set_and_get_async s cds cdg resp).1.getReqKeys
        = s.getReqKeys ++ [s.getKeys.filter (fun k => !(s.setKeys.contains k))]) ∧
    (s.multiProcess = false →
      (set_and_get_async s cds cdg resp).1.setSent
        = s.setSent ++ [pushSet s] ∧
      (set_and_get_async s cds cdg resp).1.getReqKeys
        = s.getReqKeys ++ [s.getKeys] ∧
      (set_and_get_async s cds cdg resp).1.params
        = (copyP s.params resp).1) ∧
    (∀ (s2 : CState) (ds : Bool) (r : Params),
      s2.setGetFuture = some (ds, false, r) →
      (completeSetGetG s2).params = (copyP s2.params r).1) := by
  have hreach : (decide (s.updatePeriod ≤
      if s.setGetCallCounter < s.updatePeriod then s.setGetCallCounter + 1
      else s.setGetCallCounter) && s.setGetFuture.isNone) = true := by
    rw [hfut]
    simp only [Option.isNone_none, Bool.and_true, decide_eq_true_eq]
    split <;> omega
  refine ⟨?_, ?_, ?_⟩
  · intro hm
    simp only [set_and_get_async]
    rw [if_pos hreach]
    cases cdg <;>
      · simp [async_adjust_and_request, hm]
  · intro hm
    simp only [set_and_get_async]
    rw [if_pos hreach]
    by_cases herr : (copyP s.params resp).2.isNone
    · simp [async_adjust_and_request, adjust_and_request, hm, herr]
    · simp [async_adjust_and_request, adjust_and_request, hm, herr]
  · intro s2 ds r h
    simp [completeSetGetG, h]

/-- C5 witness: the amended theorem evaluated on the concrete
single-process client. -/
theorem claim_C5_witness :
    (set_and_get_async c5State false false c5Resp).1.setSent
      = c5State.setSent ++ [pushSet c5State] ∧
    (set_and_get_async c5State false false c5Resp).1.getReqKeys
      = c5State.getReqKeys ++ [c5State.getKeys] ∧
    (set_and_get_async c5State false false c5Resp).1.params
      = (copyP c5State.params c5Resp).1 :=
  (claim_C5 c5State false false c5Resp (by decide) (by decide)).2.1 rfl

/-! ### Claims C7, C9, C10: the merge procedure -/

lemma zipWith_zero_add (m : List Int) :
    List.zipWith (· + ·) (List.replicate m.length (0 : Int)) m = m := by
  induction m with
  | nil => rfl
  | cons b tm ih => simp [List.replicate_succ, ih]

lemma arrMerge_oid (la na : NpArray) : (arrMerge la na).1.oid = la.oid := by
  unfold arrMerge
  repeat' split
  all_goals simp

lemma arrMerge_shape (la na : NpArray) :
    (arrMerge la na).1.shape = la.shape := by
  unfold arrMerge
  repeat' split
  all_goals simp

lemma arrMerge_same_shape (la na : NpArray) (hsh : na.shape = la.shape)
    (hl : la.data.length = shapeSize la.shape)
    (hn : na.data.length = shapeSize na.shape) :
    arrMerge la na = ({ la with data := na.data }, none) := by
  have hll : la.data.length = na.data.length := by rw [hl, hn, hsh]
  have hz := zipWith_zero_add na.data
  simp [arrMerge, hsh, hll, hz]

lemma arrMerge_slice (la na : NpArray) (d : Nat) (hd : 1 ≤ d)
    (hsh : na.shape = d :: la.shape)
    (hl : la.data.length = shapeSize la.shape)
    (hn : na.data.length = shapeSize na.shape) :
    arrMerge la na
      = ({ la with data := na.data.take (shapeSize la.shape) }, none) := by
  have hne : ¬(d :: la.shape = la.shape) := by
    intro hcontra
    have := congrArg List.length hcontra
    simp at this
  have hsize : shapeSize la.shape ≤ na.data.length := by
    rw [hn, hsh]
    show shapeSize la.shape ≤ shapeSize (d :: la.shape)
    unfold shapeSize
    rw [List.prod_cons]
    exact Nat.le_mul_of_pos_left _ (by omega)
  have hlen : (na.data.take (shapeSize la.shape)).length
      = shapeSize la.shape := by
    rw [List.length_take]
    omega
  have hz : List.zipWith (· + ·) (List.replicate la.data.length (0 : Int))
      (na.data.take (shapeSize la.shape))
      = na.data.take (shapeSize la.shape) := by
    have hz0 := zipWith_zero_add (na.data.take (shapeSize la.shape))
    rw [hlen] at hz0
    rw [hl]
    exact hz0
  simp [arrMerge, hsh, hne, hd, hz]

lemma tupFold (nt : List NpArray) :
    ∀ (n : Nat) (lt : List NpArray), n ≤ lt.length →
      (List.range n).foldl (tupStep nt) (lt, none)
        = if n ≤ nt.length then (nt.take n ++ lt.drop n, none)
          else (nt ++ lt.drop nt.length, some (.indexError nt.length)) := by
  intro n
  induction n with
  | zero =>
    intro lt h
    simp
  | succ n ih =>
    intro lt h
    rw [List.range_succ, List.foldl_append, ih lt (by omega)]
    by_cases hn : n ≤ nt.length
    · rw [if_pos hn]
      simp only [List.foldl_cons, List.foldl_nil]
      by_cases hn2 : n + 1 ≤ nt.length
      · have hget : nt.get? n = some (nt.get ⟨n, by omega⟩) :=
          List.get?_eq_get (by omega)
        rw [if_pos hn2]
        simp only [tupStep, hget]
        have hlt : (nt.take n).length = n := by
          rw [List.length_take]; omega
        rw [List.set_append]
        rw [if_neg (by omega)]
        rw [hlt]
        have hsub : n - n = 0 := by omega
        rw [hsub]
        have hdrop : lt.drop n = lt[n] :: lt.drop (n + 1) :=
          List.drop_eq_getElem_cons (by omega)
        rw [hdrop, List.set_cons_zero]
        have htake : nt.take (n + 1) = nt.take n ++ [nt.get ⟨n, by omega⟩] := by
          rw [List.take_succ, List.getElem?_eq_getElem (by omega)]
          simp
        have hc : (nt.get ⟨n, by omega⟩) :: List.drop (n + 1) lt
            = [nt.get ⟨n, by omega⟩] ++ List.drop (n + 1) lt := rfl
        rw [hc, ← List.append_assoc, htake]
      · have heq : n = nt.length := by omega
        have hget : nt.get? n = none := List.get?_eq_none.mpr (by omega)
        rw [if_neg hn2]
        simp only [tupStep, hget]
        rw [heq, List.take_length]
    · rw [if_neg hn, if_neg (by omega)]
      simp only [List.foldl_cons, List.foldl_nil, tupStep]

lemma tupMerge_long (lt nt : List NpArray) (h : lt.length ≤ nt.length) :
    tupMerge lt nt = (nt.take lt.length, none) := by
  unfold tupMerge
  rw [tupFold nt lt.length lt (le_refl _), if_pos h, List.drop_length]
  simp

lemma tupMerge_short (lt nt : List NpArray) (h : nt.length < lt.length) :
    tupMerge lt nt
      = (nt ++ lt.drop nt.length, some (.indexError nt.length)) := by
  unfold tupMerge
  rw [tupFold nt lt.length lt (le_refl _), if_neg (by omega)]

/-- C7: merging a numeric-array server value with no device placement
updates the local buffer in place: the merged entry keeps the local
buffer's identity and shape (line 344 zeroes it, lines 347/349 add the
new value); when the server value carries an extra leading dimension
only its first slice is applied, and when the shapes agree the merged
contents equal the server value exactly. -/
theorem claim_C7 (ps : Params) (k : String) (la na : NpArray)
    (hk : dlookup ps k = some (.arr la))
    (hl : la.data.length = shapeSize la.shape)
    (hn : na.data.length = shapeSize na.shape) :
    (dlookup (copyKey ps k (.arr na)).1 k = some (.arr (arrMerge la na).1) ∧
      (arrMerge la na).1.oid = la.oid ∧
      (arrMerge la na).1.shape = la.shape) ∧
    (na.shape = la.shape →
      (copyKey ps k (.arr na)).2 = none ∧
      (arrMerge la na).1.data = na.data) ∧
    (∀ d, 1 ≤ d → na.shape = d :: la.shape →
      (copyKey ps k (.arr na)).2 = none ∧
      (arrMerge la na).1.data = na.data.take (shapeSize la.shape)) := by
  have hck : copyKey ps k (.arr na)
      = (dinsert ps k (.arr (arrMerge la na).1), (arrMerge la na).2) := by
    simp only [copyKey, hk]
  refine ⟨⟨?_, arrMerge_oid la na, arrMerge_shape la na⟩, ?_, ?_⟩
  · rw [hck]
    exact dlookup_dinsert_self ps k (.arr (arrMerge la na).1)
  · intro hsh
    have hm := arrMerge_same_shape la na hsh hl hn
    exact ⟨by rw [hck, hm], by rw [hm]⟩
  · intro d hd hsh
    have hm := arrMerge_slice la na d hd hsh hl hn
    exact ⟨by rw [hck, hm], by rw [hm]⟩

/-- A local replica holding one weight array of shape `[2]`. -/
def c7ps : Params :=
  [("w", .arr { oid := 5, shape := [2], data := [1, 2] })]

/-- A server response for `"w"` carrying an extra leading replica axis. -/
def c7na : NpArray := { oid := 9, shape := [3, 2], data := [10, 20, 30, 40, 50, 60] }

/-- C7 witness: the in-place merge evaluated on a concrete replica with
a per-replica leading axis in the response: identity preserved, first
slice applied. -/
theorem claim_C7_witness :
    dlookup (copyKey c7ps "w" (.arr c7na)).1 "w"
      = some (.arr (arrMerge { oid := 5, shape := [2], data := [1, 2] } c7na).1) ∧
    (arrMerge { oid := 5, shape := [2], data := [1, 2] } c7na).1.oid = 5 ∧
    (copyKey c7ps "w" (.arr c7na)).2 = none ∧
    (arrMerge { oid := 5, shape := [2], data := [1, 2] } c7na).1.data
      = [10, 20] := by
  have h := claim_C7 c7ps "w" { oid := 5, shape := [2], data := [1, 2] } c7na
    (by decide) (by decide) (by decide)
  have h3 := h.2.2 3 (by decide) (by decide)
  exact ⟨h.1.1, h.1.2.1, h3.1, by rw [h3.2]; decide⟩

/-- C9: a server value that is neither a dictionary, a numpy array, nor
a tuple makes `_copy` raise (lines 359-363) — the merge never completes
successfully, and when the offending key is reached the raised error is
the `NotImplementedError` naming that key and the value's type. -/
theorem claim_C9 (loc : Params) (pre post : List (String × PValue))
    (k t : String) :
    ¬(copyP loc (pre ++ (k, .blob t) :: post)).2 = none ∧
    ((copyP loc pre).2 = none →
      copyP loc (pre ++ (k, .blob t) :: post)
        = ((copyP loc pre).1, some (.notImplemented k t))) := by
  induction pre generalizing loc with
  | nil =>
    constructor
    · simp [copyP, copyKey]
    · intro _
      simp [copyP, copyKey]
  | cons kv rest ih =>
    rw [List.cons_append]
    cases hck : copyKey loc kv.1 kv.2 with
    | mk l2 e =>
      cases e with
      | some err =>
        constructor
        · simp [copyP, hck]
        · intro hpre
          exfalso
          simp [copyP, hck] at hpre
      | none =>
        obtain ⟨ihl, ihr⟩ := ih l2
        constructor
        · simpa [copyP, hck] using ihl
        · intro hpre
          have hpre2 : (copyP l2 rest).2 = none := by
            simpa [copyP, hck] using hpre
          simp [copyP, hck]
          exact ihr hpre2

/-- A replica whose second tracked value is an opaque blob. -/
def c9ps : Params :=
  [("w", .arr { oid := 5, shape := [2], data := [1, 2] }),
   ("blob", .blob "FrozenSet")]

/-- A server response whose first key merges cleanly and whose second is
the unsupported blob. -/
def c9resp : List (String × PValue) :=
  [("w", .arr { oid := 6, shape := [2], data := [7, 8] }),
   ("blob", .blob "FrozenSet")]

/-- C9 witness: the concrete merge fails with the `NotImplementedError`
naming the offending key and its type. -/
theorem claim_C9_witness :
    ¬(copyP c9ps c9resp).2 = none ∧
    copyP c9ps ([("w", .arr { oid := 6, shape := [2], data := [7, 8] })]
        ++ ("blob", .blob "FrozenSet") :: [])
      = ((copyP c9ps [("w", .arr { oid := 6, shape := [2], data := [7, 8] })]).1,
         some (.notImplemented "blob" "FrozenSet")) := by
  have h := claim_C9 c9ps [("w", .arr { oid := 6, shape := [2], data := [7, 8] })]
    [] "blob" "FrozenSet"
  exact ⟨by simpa [c9resp] using h.1, h.2 (by decide)⟩

/-- C10: merging a tuple-of-arrays server value iterates only over the
indices of the client's local sequence (line 351): a longer server
tuple has its trailing elements silently dropped, and a shorter one
raises `IndexError` at the first missing index after the earlier
elements have already been overwritten — a partial, non-atomic update. -/
theorem claim_C10 (ps : Params) (k : String) (lt nt : List NpArray)
    (hk : dlookup ps k = some (.tup lt)) :
    dlookup (copyKey ps k (.tup nt)).1 k = some (.tup (tupMerge lt nt).1) ∧
    (lt.length ≤ nt.length →
      (copyKey ps k (.tup nt)).2 = none ∧
      (tupMerge lt nt).1 = nt.take lt.length) ∧
    (nt.length < lt.length →
      (copyKey ps k (.tup nt)).2 = some (.indexError nt.length) ∧
      (tupMerge lt nt).1 = nt ++ lt.drop nt.length) := by
  have hck : copyKey ps k (.tup nt)
      = (dinsert ps k (.tup (tupMerge lt nt).1), (tupMerge lt nt).2) := by
    simp only [copyKey, hk]
  refine ⟨?_, ?_, ?_⟩
  · rw [hck]
    exact dlookup_dinsert_self ps k (.tup (tupMerge lt nt).1)
  · intro h
    have hm := tupMerge_long lt nt h
    exact ⟨by rw [hck, hm], by rw [hm]⟩
  · intro h
    have hm := tupMerge_short lt nt h
    exact ⟨by rw [hck, hm], by rw [hm]⟩

/-- Arrays making up a concrete local layer list. -/
def c10a : NpArray := { oid := 1, shape := [1], data := [1] }
def c10b : NpArray := { oid := 2, shape := [1], data := [2] }
def c10c : NpArray := { oid := 3, shape := [1], data := [3] }

/-- A replica tracking a two-layer tuple. -/
def c10ps : Params := [("layers", .tup [c10a, c10b])]

/-- C10 witness: a longer server tuple is truncated to the local
length; a shorter one fails with `IndexError 1` having already
overwritten element 0. -/
theorem claim_C10_witness :
    ((copyKey c10ps "layers" (.tup [c10c, c10c, c10c])).2 = none ∧
      (tupMerge [c10a, c10b] [c10c, c10c, c10c]).1 = [c10c, c10c]) ∧
    ((copyKey c10ps "layers" (.tup [c10c])).2 = some (.indexError 1) ∧
      (tupMerge [c10a, c10b] [c10c]).1 = [c10c] ++ [c10a, c10b].drop 1) := by
  have h1 := (claim_C10 c10ps "layers" [c10a, c10b] [c10c, c10c, c10c]
    (by decide)).2.1 (by decide)
  have h2 := (claim_C10 c10ps "layers" [c10a, c10b] [c10c]
    (by decide)).2.2 (by decide)
  exact ⟨⟨h1.1, by rw [h1.2]; decide⟩, h2⟩

/-! ### Claim C8: episode network stability -/

lemma runEx_cons (s : ExecStore) (e : ExEv) (rest : List ExEv) :
    runEx s (e :: rest) = runEx (stepEx s e) rest := rfl

lemma runEx_no_first (evs : List ExEv) :
    ∀ s : ExecStore, (∀ e ∈ evs, isObserveFirst e = false) →
      (runEx s evs).networkIntKeysExtras = s.networkIntKeysExtras ∧
      (runEx s evs).agentNetKeys = s.agentNetKeys ∧
      ∃ suf, (runEx s evs).addLog = s.addLog ++ suf ∧
        ∀ r ∈ suf, r.2.2.netIntKeys = some s.networkIntKeysExtras := by
  induction evs with
  | nil =>
    intro s _
    exact ⟨rfl, rfl, [], by simp [runEx], by simp⟩
  | cons e rest ih =>
    intro s hall
    have he : isObserveFirst e = false := hall e (by simp)
    have hall' : ∀ e2 ∈ rest, isObserveFirst e2 = false :=
      fun e2 h2 => hall e2 (by simp [h2])
    rw [runEx_cons]
    cases e with
    | observeFirst a b c dd => simp [isObserveFirst] at he
    | observe ai ts base =>
      cases hA : s.hasAdder with
      | false =>
        have hstep : stepEx s (.observe ai ts base) = s := by
          simp [stepEx, on_execution_observe, hA]
        rw [hstep]
        exact ih s hall'
      | true =>
        have hstep : stepEx s (.observe ai ts base)
            = { s with
                  nextExtras :=
                    { base with netIntKeys := some s.networkIntKeysExtras },
                  addLog := s.addLog ++ [(ai.map (fun p => (p.1, p.2)), ts,
                    { base with netIntKeys := some s.networkIntKeysExtras })] } := by
          simp [stepEx, on_execution_observe, hA]
        obtain ⟨h1, h2, suf, hlog, hsuf⟩ := ih (stepEx s (.observe ai ts base)) hall'
        refine ⟨by rw [h1, hstep], by rw [h2, hstep], ?_⟩
        refine ⟨(ai.map (fun p => (p.1, p.2)), ts,
          { base with netIntKeys := some s.networkIntKeysExtras }) :: suf, ?_, ?_⟩
        · rw [hlog, hstep]
          simp
        · intro r hr
          rcases List.mem_cons.mp hr with h | h
          · rw [h]
          · have := hsuf r h
            rw [hstep] at this
            exact this
    | update =>
      have hkeep : (stepEx s .update).networkIntKeysExtras
            = s.networkIntKeysExtras ∧
          (stepEx s .update).agentNetKeys = s.agentNetKeys ∧
          (stepEx s .update).addLog = s.addLog := by
        simp only [stepEx, on_execution_update]
        split <;> simp
      obtain ⟨h1, h2, suf, hlog, hsuf⟩ := ih (stepEx s .update) hall'
      refine ⟨by rw [h1, hkeep.1], by rw [h2, hkeep.2.1], suf, ?_, ?_⟩
      · rw [hlog, hkeep.2.2]
      · intro r hr
        have := hsuf r hr
        rw [hkeep.1] at this
        exact this
    | forceUpdate =>
      have hkeep : (stepEx s .forceUpdate).networkIntKeysExtras
            = s.networkIntKeysExtras ∧
          (stepEx s .forceUpdate).agentNetKeys = s.agentNetKeys ∧
          (stepEx s .forceUpdate).addLog = s.addLog := by
        simp only [stepEx, on_execution_force_update]
        split <;> simp
      obtain ⟨h1, h2, suf, hlog, hsuf⟩ := ih (stepEx s .forceUpdate) hall'
      refine ⟨by rw [h1, hkeep.1], by rw [h2, hkeep.2.1], suf, ?_, ?_⟩
      · rw [hlog, hkeep.2.2]
      · intro r hr
        have := hsuf r hr
        rw [hkeep.1] at this
        exact this

/-- C8: once `on_execution_observe_first` establishes the episode's
network assignment (with an experience sink attached), every
`on_execution_observe` during the episode forwards exactly that
`network_int_keys` value in the metadata handed to the sink, and no
other pipeline operation changes the agent-to-network assignment. -/
theorem claim_C8 (s0 : ExecStore) (net : List (String × Nat))
    (ank : List (String × String)) (ts : Nat) (base : Extras)
    (evs : List ExEv) (hA : s0.hasAdder = true)
    (hno : ∀ e ∈ evs, isObserveFirst e = false) :
    (runEx (stepEx s0 (.observeFirst net ank ts base)) evs).networkIntKeysExtras
      = net ∧
    (runEx (stepEx s0 (.observeFirst net ank ts base)) evs).agentNetKeys
      = ank ∧
    (∃ suf, (runEx (stepEx s0 (.observeFirst net ank ts base)) evs).addLog
        = s0.addLog ++ suf ∧ ∀ r ∈ suf, r.2.2.netIntKeys = some net) ∧
    (∀ (s : ExecStore) (e : ExEv), isObserveFirst e = false →
      (stepEx s e).networkIntKeysExtras = s.networkIntKeysExtras ∧
      (stepEx s e).agentNetKeys = s.agentNetKeys) := by
  have hstep : stepEx s0 (.observeFirst net ank ts base)
      = { s0 with
            networkIntKeysExtras := net,
            agentNetKeys := ank,
            extras := { base with netIntKeys := some net },
            addFirstLog := s0.addFirstLog
              ++ [(ts, { base with netIntKeys := some net })] } := by
    simp [stepEx, on_execution_observe_first, hA]
  obtain ⟨h1, h2, suf, hlog, hsuf⟩ :=
    runEx_no_first evs (stepEx s0 (.observeFirst net ank ts base)) hno
  refine ⟨by rw [h1, hstep], by rw [h2, hstep], ⟨suf, ?_, ?_⟩, ?_⟩
  · rw [hlog, hstep]
  · intro r hr
    have := hsuf r hr
    rw [hstep] at this
    exact this
  · intro s e he
    cases e with
    | observeFirst a b c dd => simp [isObserveFirst] at he
    | observe ai ts2 base2 =>
      constructor <;>
        · simp only [stepEx, on_execution_observe]
          split <;> simp
    | update =>
      constructor <;>
        · simp only [stepEx, on_execution_update]
          split <;> simp
    | forceUpdate =>
      constructor <;>
        · simp only [stepEx, on_execution_force_update]
          split <;> simp

/-- An executor store at episode start with a sink and a client attached. -/
def c8Store : ExecStore :=
  { hasAdder := true, hasClient := true,
    agentNetKeys := [("agent_0", "network_0")],
    networkIntKeysExtras := [("agent_0", 0)],
    extras := { netIntKeys := none, payload := 0 },
    nextExtras := { netIntKeys := none, payload := 0 },
    addFirstLog := [], addLog := [],
    clientGetCalls := 0, clientWaitCalls := 0 }

/-- C8 witness: a concrete episode — observe-first, two observes and an
update — reports the sampled assignment unchanged. -/
theorem claim_C8_witness :
    (runEx (stepEx c8Store
        (.observeFirst [("agent_0", 3)] [("agent_0", "network_3")] 0
          { netIntKeys := none, payload := 1 }))
        [.observe [("agent_0", 7)] 1 { netIntKeys := none, payload := 2 },
         .update,
         .observe [("agent_0", 8)] 2 { netIntKeys := none, payload := 3 }]
      ).networkIntKeysExtras = [("agent_0", 3)] ∧
    (runEx (stepEx c8Store
        (.observeFirst [("agent_0", 3)] [("agent_0", "network_3")] 0
          { netIntKeys := none, payload := 1 }))
        [.observe [("agent_0", 7)] 1 { netIntKeys := none, payload := 2 },
         .update,
         .observe [("agent_0", 8)] 2 { netIntKeys := none, payload := 3 }]
      ).agentNetKeys = [("agent_0", "network_3")] :=
  ⟨(claim_C8 c8Store [("agent_0", 3)] [("agent_0", "network_3")] 0
      { netIntKeys := none, payload := 1 }
      [.observe [("agent_0", 7)] 1 { netIntKeys := none, payload := 2 },
       .update,
       .observe [("agent_0", 8)] 2 { netIntKeys := none, payload := 3 }]
      rfl (by decide)).1,
   (claim_C8 c8Store [("agent_0", 3)] [("agent_0", "network_3")] 0
      { netIntKeys := none, payload := 1 }
      [.observe [("agent_0", 7)] 1 { netIntKeys := none, payload := 2 },
       .update,
       .observe [("agent_0", 8)] 2 { netIntKeys := none, payload := 3 }]
      rfl (by decide)).2.1⟩

end Mava
